import Mathlib

/-!
# Verification of the second-brain ingestion and retrieval pipelines

Shallow embedding of the backend of the `second-brain` repository:
`src/backend/src/utils/openai.utils.ts`, `src/backend/src/utils/url.utils.ts`,
`src/backend/src/controllers/link.controller.ts`,
`src/backend/src/controllers/chat.controller.ts` and the store-side
`match_links` function of `src/backend/prisma/supabase-setup.sql`.

External I/O (HTTP fetches, the OpenAI provider, the Postgres store) is made
explicit: each provider call's *response* is an input of the embedded
function, and the store is an explicit state value threaded through the
controllers.  JavaScript numbers are modelled by `JNum`, a rational value
tagged as finite or one of the non-finite IEEE values, so that the
finiteness checks of the code are meaningful.
-/

/-- A JavaScript number: either a finite value (modelled as a rational)
or one of the non-finite IEEE values `NaN`, `Infinity`, `-Infinity`. -/
inductive JNum where
  | fin (q : ℚ)
  | nan
  | posInf
  | negInf
deriving DecidableEq, Repr

/-- `Number.isFinite` (and `!Number.isNaN`) for a `JNum`. -/
def JNum.isFinite : JNum → Bool
  | .fin _ => true
  | _ => false

/-- `openai.utils.ts`: `const EMBEDDING_DIMENSIONS = 1536`. -/
def EMBEDDING_DIMENSIONS : Nat := 1536

/-- `openai.utils.ts`: the fixed controlled vocabulary `AVAILABLE_TAGS`. -/
def AVAILABLE_TAGS : List String :=
  ["Article", "Blog", "News", "Tutorial", "Documentation", "Video", "Image",
   "Social Media", "Research", "Tool", "Product", "Forum", "Discussion",
   "Review", "Music"]

/-- `openai.utils.ts` / `generateEmbedding`.  The provider call
`openai.embeddings.create` is external: its outcome (either a thrown error
or the returned `response.data[0].embedding` vector) is the input
`outcome`.  The function re-raises provider errors and validates the
vector: length must be `EMBEDDING_DIMENSIONS` and every component must be
finite; any violation throws (modelled as `Except.error`). -/
def generateEmbedding (outcome : Except String (List JNum)) :
    Except String (List JNum) :=
  match outcome with
  | .error e => .error ("Failed to generate embedding: " ++ e)
  | .ok embedding =>
    if embedding.length ≠ EMBEDDING_DIMENSIONS then
      .error "Failed to generate embedding: Invalid embedding dimensions"
    else if embedding.any (fun v => !v.isFinite) then
      .error "Failed to generate embedding: Embedding contains NaN or non-finite values"
    else
      .ok embedding

/-- `openai.utils.ts` / `generateSummary`.  The provider outcome is either a
thrown error or the (possibly `null`) `message.content`.  Errors degrade to
the placeholder summary, a `null`/missing content degrades to `''`. -/
def generateSummary (outcome : Except String (Option String)) : String :=
  match outcome with
  | .error _ => "No summary available due to processing error."
  | .ok content => (content.getD "").trim

/-- JavaScript `String.prototype.toLowerCase`, modelled character-wise
(the controlled vocabulary is plain ASCII). -/
def jsToLower (s : String) : String := ⟨s.data.map Char.toLower⟩

/-- `openai.utils.ts` / `generateTags`.  The provider call and the untrusted
JSON parsing of its text answer are external; `outcome` is either a thrown
provider error or the parsed list of raw tag strings (`parsedTags`).  The
embedded part is the post-filter: keep only tags matching the controlled
vocabulary case-insensitively, restore canonical casing, cap at 5, and
substitute the default pair when nothing survives or the call errored. -/
def generateTags (outcome : Except String (List String)) : List String :=
  match outcome with
  | .error _ => ["Article", "Blog"]
  | .ok parsedTags =>
    let validTags :=
      ((parsedTags.filter (fun tag =>
          AVAILABLE_TAGS.any (fun validTag =>
            jsToLower validTag == jsToLower tag))).map (fun tag =>
          ((AVAILABLE_TAGS.find? (fun validTag =>
            jsToLower validTag == jsToLower tag)).getD tag))).take 5
    if validTags.isEmpty then ["Article", "Blog"] else validTags

/-- `openai.utils.ts` / `generateChatResponse`.  The provider outcome is
either a thrown error or the (possibly `null`) `message.content`.  A thrown
error is swallowed and replaced by the apologetic fallback; a `null` or
empty content is replaced by `'I could not generate a response.'` (the
JavaScript `||` treats the empty string as falsy).  The query and the
retrieved links only shape the prompt sent to the provider, which is not
modelled. -/
def generateChatResponse (outcome : Except String (Option String))
    (_query : String) (_relevantLinks : List (String × Option String × Option String)) :
    String :=
  match outcome with
  | .error _ =>
    "Sorry, I encountered an error while generating a response. Please try again later."
  | .ok content =>
    match content with
    | none => "I could not generate a response."
    | some c => if c = "" then "I could not generate a response." else c

/-! ## Content extraction (`url.utils.ts` / `extractUrlContent`)

JavaScript strings are modelled as `List Char`.  The cheerio DOM work is
external: a fetched-and-parsed page is abstracted as the text the three
cascaded strategies of the code would read from it. -/

/-- Whitespace as matched by the `\s` class used in the clean-up regexes
(and stripped by `trim`). -/
def isWs (c : Char) : Bool :=
  c = ' ' || c = '\n' || c = '\t' || c = '\r'

/-- JavaScript `String.prototype.trim`. -/
def jsTrim (l : List Char) : List Char :=
  (((l.dropWhile isWs).reverse).dropWhile isWs).reverse

/-- Helper for `collapseWs`: the flag records whether the previously
emitted character came from a whitespace run. -/
def collapseWsAux : Bool → List Char → List Char
  | _, [] => []
  | prevWs, c :: rest =>
    if isWs c then
      if prevWs then collapseWsAux true rest
      else ' ' :: collapseWsAux true rest
    else c :: collapseWsAux false rest

/-- The clean-up `content.replace(/\s+/g, ' ')`: every maximal whitespace
run becomes a single space.  (The subsequent `.replace(/\n+/g, '\n')` of
the code is the identity on its output, since no newline survives.) -/
def collapseWs (l : List Char) : List Char := collapseWsAux false l

/-- A fetched page, abstracted to what `extractUrlContent` reads from the
cheerio document after removing script/style/nav/…: the trimmed text of the
first matching selector of `contentSelectors` (if any selector matched),
the texts of the `<p>` elements, and the whole-body text. -/
structure Page where
  containerText : Option (List Char)
  paragraphs : List (List Char)
  bodyText : List Char

/-- `url.utils.ts` / `extractUrlContent`, the raw `content` value before
clean-up: first-matching content container, else the sufficiently long
paragraphs joined by blank lines, else the whole body text. -/
def rawContent (page : Page) : List Char :=
  let fromSelector := match page.containerText with
    | some t => jsTrim t
    | none => []
  if fromSelector.isEmpty then
    let paragraphs := (page.paragraphs.map jsTrim).filter (fun t => 50 < t.length)
    if !paragraphs.isEmpty then List.intercalate ('\n' :: '\n' :: []) paragraphs
    else jsTrim page.bodyText
  else fromSelector

/-- The cleaned content: whitespace collapsed and trimmed. -/
def cleanedContent (page : Page) : List Char :=
  jsTrim (collapseWs (rawContent page))

/-- `url.utils.ts`: `const maxLength = 8000`. -/
def CONTENT_MAX_LENGTH : Nat := 8000

/-- The length bound of `extractUrlContent`: keep the first `maxLength`
characters and append `'...'` when the content exceeds the bound. -/
def truncated (content : List Char) : List Char :=
  if CONTENT_MAX_LENGTH < content.length then
    content.take CONTENT_MAX_LENGTH ++ String.toList "..."
  else content

/-- `url.utils.ts` / `extractUrlContent`.  The axios fetch and cheerio load
are external: `fetch` is either the thrown error's message or the parsed
`Page`.  On a throw, the catch block returns the failure marker string; on
success the cleaned content is truncated to `maxLength` characters plus an
ellipsis, and the empty string degrades to the could-not-extract marker
(JavaScript `content || fallback`). -/
def extractUrlContent (fetch : Except (List Char) Page) (url : List Char) :
    List Char :=
  match fetch with
  | .error e =>
    String.toList "Failed to extract content from " ++ url ++
      String.toList ". Error: " ++ e
  | .ok page =>
    if (truncated (cleanedContent page)).isEmpty then
      String.toList "Could not extract meaningful content from " ++ url
    else truncated (cleanedContent page)

/-! ## The record store

The Postgres tables `links`, `tags` and `link_to_tag` of
`supabase-setup.sql`, as explicit state.  `nextId` models the
`uuid_generate_v4()` id supply (fresh ids), `clock` the `now()` default of
`created_at`. -/

/-- A row of `public.links`. -/
structure Link where
  id : Nat
  url : String
  title : Option String
  image : Option String
  domain : Option String
  summary : Option String
  embedding : Option (List JNum)
  userId : Nat
  createdAt : Nat
deriving DecidableEq, Repr

/-- A row of `public.tags` (`name` carries a UNIQUE constraint). -/
structure TagRow where
  id : Nat
  name : String
deriving DecidableEq, Repr

/-- A row of `public.link_to_tag` (primary key `(link_id, tag_id)`). -/
structure LinkTag where
  linkId : Nat
  tagId : Nat
deriving DecidableEq, Repr

/-- The whole store. -/
structure Store where
  links : List Link
  tags : List TagRow
  linkTags : List LinkTag
  nextId : Nat
  clock : Nat
deriving DecidableEq, Repr

/-- `prisma.tag.upsert({where: {name}, update: {}, create: {name}})`.
With a single unique `where` field and no nested writes, Prisma issues a
database-level `INSERT … ON CONFLICT DO UPDATE`, an atomic store
operation: return the existing row if one carries the name, otherwise
insert a fresh one. -/
def upsertTag (name : String) (s : Store) : TagRow × Store :=
  match s.tags.find? (fun t => t.name == name) with
  | some t => (t, s)
  | none =>
    let t : TagRow := ⟨s.nextId, name⟩
    (t, { s with tags := s.tags ++ [t], nextId := s.nextId + 1 })

/-- The raw `INSERT INTO public.link_to_tag … ON CONFLICT (link_id, tag_id)
DO NOTHING` of `createTagsForLink`. -/
def insertLinkTag (linkId tagId : Nat) (s : Store) : Store :=
  if s.linkTags.any (fun p => p.linkId == linkId && p.tagId == tagId) then s
  else { s with linkTags := s.linkTags ++ [⟨linkId, tagId⟩] }

/-- One iteration of the `for (const tagName of tagNames)` loop of
`createTagsForLink`: upsert the tag, then insert the link-to-tag
connection using the id the upsert returned. -/
def tagStep (linkId : Nat) (s : Store) (name : String) : Store :=
  insertLinkTag linkId ((upsertTag name s).1).id (upsertTag name s).2

/-- `link.controller.ts` / `createTagsForLink`: for each tag name, upsert
the tag and insert the link-to-tag connection. -/
def createTagsForLink (linkId : Nat) (tagNames : List String) (s : Store) :
    Store :=
  tagNames.foldl (tagStep linkId) s

/-- `link.controller.ts` / `deleteTagsForLink`: `DELETE FROM
public.link_to_tag WHERE link_id = …`. -/
def deleteTagsForLink (linkId : Nat) (s : Store) : Store :=
  { s with linkTags := s.linkTags.filter (fun p => !(p.linkId == linkId)) }

/-- The tag names currently linked to a link row. -/
def tagNamesOf (linkId : Nat) (s : Store) : List String :=
  ((s.linkTags.filter (fun p => p.linkId == linkId)).filterMap (fun p =>
    s.tags.find? (fun t => t.id == p.tagId))).map (fun t => t.name)

/-! ## Ingestion (`link.controller.ts` / `createLink`) -/

/-- The outcomes of the external calls one `createLink` run performs:
`extractUrlMetadata` (which never throws — it degrades internally),
the content fetch, and the three provider calls. -/
structure IngestEnv where
  metaTitle : Option String
  metaImage : Option String
  metaDomain : String
  contentFetch : Except (List Char) Page
  summaryOutcome : Except String (Option String)
  tagsOutcome : Except String (List String)
  embeddingOutcome : Except String (List JNum)

/-- HTTP status plus resulting store state. -/
structure IngestResult where
  status : Nat
  store : Store
deriving Repr

/-- `link.controller.ts` / `createLink` (authenticated, validated path):
extract metadata and content, generate summary and tags (both degrade,
never throw), generate the embedding (throws on provider error or invalid
vector — caught by the controller as a 500 *before* any write), re-check
the dimension, insert the link row, then attach the tags.  The store is
only modified on the success path. -/
def createLink (env : IngestEnv) (userId : Nat) (url : String) (s : Store) :
    IngestResult :=
  let _content := extractUrlContent env.contentFetch url.toList
  let summary := generateSummary env.summaryOutcome
  let suggestedTags := generateTags env.tagsOutcome
  match generateEmbedding env.embeddingOutcome with
  | .error _ => ⟨500, s⟩
  | .ok embedding =>
    if embedding.length ≠ 1536 then ⟨500, s⟩
    else
      let link : Link :=
        ⟨s.nextId, url, env.metaTitle, env.metaImage, some env.metaDomain,
         some summary, some embedding, userId, s.clock⟩
      let s1 := { s with
        links := s.links ++ [link], nextId := s.nextId + 1,
        clock := s.clock + 1 }
      ⟨201, createTagsForLink s.nextId suggestedTags s1⟩

/-- The `updateData` object of `updateLink`: `title`/`summary` are set
only when the request provided them. -/
def applyUpdate (title summary : Option String) (l : Link) : Link :=
  { l with
    title := match title with | some t => some t | none => l.title,
    summary := match summary with | some v => some v | none => l.summary }

/-- `link.controller.ts` / `updateLink` (authenticated, validated path):
look the link up by id *and* owner; 404 when absent.  Otherwise update
only the provided `title`/`summary` fields, and when a `tags` array was
provided, replace this link's tag connections by the caller-supplied
names (no vocabulary filtering, no cap).  Returns status and new store. -/
def updateLink (s : Store) (userId linkId : Nat) (title summary : Option String)
    (tags : Option (List String)) : Nat × Store :=
  match s.links.find? (fun l => l.id == linkId && l.userId == userId) with
  | none => (404, s)
  | some _ =>
    let links' := s.links.map (fun l =>
      if l.id == linkId then applyUpdate title summary l else l)
    let s1 := { s with links := links' }
    match tags with
    | some tagList => (200, createTagsForLink linkId tagList (deleteTagsForLink linkId s1))
    | none => (200, s1)

/-! ## Retrieval (`supabase-setup.sql` / `match_links`, `chat.controller.ts`)

pgvector's cosine-distance operator `<=>` is a store capability the SQL
relies on; it is abstracted as a parameter `dist`.  The SQL computes the
similarity `1 - (embedding <=> query_embedding)` over rationals. -/

/-- One row of the `match_links` result table.  (`created_at` is *not*
part of the returned table.) -/
structure MatchRow where
  id : Nat
  url : String
  title : Option String
  image : Option String
  domain : Option String
  summary : Option String
  similarity : ℚ
deriving DecidableEq, Repr

/-- The `WHERE` clause of `match_links`: the owner's rows whose embedding
is non-null and whose similarity strictly exceeds `match_threshold`. -/
def matchFilter (dist : List JNum → List JNum → ℚ) (q : List JNum) (τ : ℚ)
    (uid : Nat) (links : List Link) : List Link :=
  links.filter (fun l =>
    l.userId == uid && l.embedding.isSome &&
      decide (τ < 1 - dist (l.embedding.getD []) q))

/-- The `SELECT` list of `match_links` applied to one link row. -/
def rowOf (dist : List JNum → List JNum → ℚ) (q : List JNum) (l : Link) :
    MatchRow :=
  ⟨l.id, l.url, l.title, l.image, l.domain, l.summary,
   1 - dist (l.embedding.getD []) q⟩

/-- The comparison realised by `ORDER BY similarity DESC`: `a` may come
before `b` when `a`'s similarity is at least `b`'s.  No other column takes
part in the ordering. -/
def rowGE (a b : MatchRow) : Prop := b.similarity ≤ a.similarity

instance : DecidableRel rowGE := fun a b =>
  inferInstanceAs (Decidable (b.similarity ≤ a.similarity))

instance : IsTotal MatchRow rowGE := ⟨fun a b => le_total b.similarity a.similarity⟩

instance : IsTrans MatchRow rowGE := ⟨fun _ _ _ h1 h2 => le_trans h2 h1⟩

/-- `ORDER BY similarity DESC`, realised as a stable sort on the scanned
row order (Postgres guarantees no particular order among ties; a stable
sort is one concrete refinement of the SQL semantics). -/
def sortRows (rows : List MatchRow) : List MatchRow :=
  List.insertionSort rowGE rows

/-- `supabase-setup.sql` / `match_links`: filter the owner's embedded rows
above the threshold, order by descending similarity, `LIMIT match_count`. -/
def match_links (dist : List JNum → List JNum → ℚ) (q : List JNum) (τ : ℚ)
    (K : Nat) (uid : Nat) (links : List Link) : List MatchRow :=
  (sortRows ((matchFilter dist q τ uid links).map (rowOf dist q))).take K

/-- The outcomes of the external calls one `chatWithLinks` run performs:
the query-embedding provider call, whether the `match_links` RPC itself
errors, the chat-completion provider call, and the store's cosine-distance
capability. -/
structure ChatEnv where
  embeddingOutcome : Except String (List JNum)
  rpcError : Bool
  chatOutcome : Except String (Option String)
  dist : List JNum → List JNum → ℚ

/-- HTTP status, the `response` field and the `similarLinks` field of the
JSON body (absent fields are `none`). -/
structure ChatResult where
  status : Nat
  response : Option String
  similarLinks : Option (List MatchRow)

/-- `chat.controller.ts` / `chatWithLinks` (authenticated, validated
path): embed the framed query (`'This is about: ' ++ query` — the framing
only shapes the provider request), run the `match_links` RPC with
`match_threshold = 0`, `match_count = 5`; an embedding failure or RPC
error yields a 500, an empty result still yields a 200 with an answer and
an empty `similarLinks`, otherwise answer over the retrieved context. -/
def chatWithLinks (env : ChatEnv) (query : String) (uid : Nat)
    (links : List Link) : ChatResult :=
  match generateEmbedding env.embeddingOutcome with
  | .error _ => ⟨500, none, none⟩
  | .ok queryEmbedding =>
    if env.rpcError then ⟨500, none, none⟩
    else
      let similarLinks := match_links env.dist queryEmbedding 0 5 uid links
      if similarLinks.isEmpty then
        ⟨200, some (generateChatResponse env.chatOutcome query []), some []⟩
      else
        ⟨200,
         some (generateChatResponse env.chatOutcome query
           (similarLinks.map (fun r => (r.url, r.title, r.summary)))),
         some similarLinks⟩

/-! ## Helper lemmas -/

theorem find?_or_append {α : Type} {p : α → Bool} {l1 : List α} (l2 : List α)
    (h : l1.find? p = none) : (l1 ++ l2).find? p = l2.find? p := by
  rw [List.find?_append, h, Option.none_or]

theorem find?_some_append {α : Type} {p : α → Bool} {l1 : List α}
    (l2 : List α) {a : α} (h : l1.find? p = some a) :
    (l1 ++ l2).find? p = some a := by
  rw [List.find?_append, h]; rfl

/-- A vector accepted by `generateEmbedding` has the right dimension and
only finite components, and is returned unchanged. -/
theorem generateEmbedding_ok {o : Except String (List JNum)} {v : List JNum}
    (h : generateEmbedding o = .ok v) :
    o = .ok v ∧ v.length = EMBEDDING_DIMENSIONS ∧
      ∀ x ∈ v, x.isFinite = true := by
  cases o with
  | error e => simp [generateEmbedding] at h
  | ok l =>
    simp only [generateEmbedding] at h
    split at h
    · exact absurd h (by simp)
    · split at h
      · exact absurd h (by simp)
      · rename_i hlen hany
        obtain rfl : l = v := by injection h
        refine ⟨rfl, by omega, ?_⟩
        intro x hx
        by_contra hfin
        have hfalse : x.isFinite = false := by
          revert hfin; cases x.isFinite <;> simp
        exact hany (List.any_eq_true.mpr ⟨x, hx, by simp [hfalse]⟩)

/-- `upsertTag` never touches the `links` or `linkTags` tables. -/
theorem upsertTag_links (n : String) (s : Store) :
    ((upsertTag n s).2).links = s.links := by
  unfold upsertTag; split <;> rfl

theorem upsertTag_linkTags (n : String) (s : Store) :
    ((upsertTag n s).2).linkTags = s.linkTags := by
  unfold upsertTag; split <;> rfl

/-- `insertLinkTag` never touches the `links` or `tags` tables. -/
theorem insertLinkTag_links (a b : Nat) (s : Store) :
    (insertLinkTag a b s).links = s.links := by
  unfold insertLinkTag; split <;> rfl

theorem insertLinkTag_tags (a b : Nat) (s : Store) :
    (insertLinkTag a b s).tags = s.tags := by
  unfold insertLinkTag; split <;> rfl

theorem createTagsForLink_cons (lid : Nat) (n : String) (rest : List String)
    (s : Store) :
    createTagsForLink lid (n :: rest) s =
      createTagsForLink lid rest (tagStep lid s n) := rfl

/-- `createTagsForLink` never touches the `links` table. -/
theorem createTagsForLink_links (lid : Nat) :
    ∀ (names : List String) (s : Store),
      (createTagsForLink lid names s).links = s.links := by
  intro names
  induction names with
  | nil => intro s; rfl
  | cons n rest ih =>
    intro s
    rw [createTagsForLink_cons, ih, tagStep, insertLinkTag_links, upsertTag_links]

/-! ## C2 — embedding validation -/

/-- C2: every vector `generateEmbedding` returns has length exactly 1536
and only finite components; a provider response violating this makes
`generateEmbedding` raise an error instead; and hence every link row a
successful `createLink` adds stores such a vector. -/
theorem c2_generateEmbedding_validated :
    (∀ (outcome : Except String (List JNum)) (v : List JNum),
      generateEmbedding outcome = .ok v →
        v.length = 1536 ∧ ∀ x ∈ v, x.isFinite = true) ∧
    (∀ l : List JNum,
      l.length ≠ 1536 ∨ (∃ x ∈ l, x.isFinite = false) →
        ∃ e, generateEmbedding (.ok l) = .error e) ∧
    (∀ (env : IngestEnv) (uid : Nat) (url : String) (s : Store) (l : Link),
      (createLink env uid url s).status = 201 →
      l ∈ (createLink env uid url s).store.links →
      l ∈ s.links ∨ ∃ emb, l.embedding = some emb ∧ emb.length = 1536 ∧
        ∀ x ∈ emb, x.isFinite = true) := by
  refine ⟨?_, ?_, ?_⟩
  · intro outcome v h
    exact (generateEmbedding_ok h).2
  · intro l h
    rcases h with h | ⟨x, hx, hxf⟩
    · exact ⟨"Failed to generate embedding: Invalid embedding dimensions",
        by simp [generateEmbedding, h, EMBEDDING_DIMENSIONS]⟩
    · by_cases hlen : l.length = 1536
      · refine ⟨"Failed to generate embedding: Embedding contains NaN or non-finite values", ?_⟩
        have hany : l.any (fun v => !v.isFinite) = true :=
          List.any_eq_true.mpr ⟨x, hx, by simp [hxf]⟩
        simp [generateEmbedding, hany, EMBEDDING_DIMENSIONS, hlen]
      · exact ⟨"Failed to generate embedding: Invalid embedding dimensions",
          by simp [generateEmbedding, EMBEDDING_DIMENSIONS, hlen]⟩
  · intro env uid url s l hst hmem
    cases hge : generateEmbedding env.embeddingOutcome with
    | error e =>
      simp only [createLink, hge] at hst
      exact absurd hst (by decide)
    | ok emb =>
      obtain ⟨-, hlen, hfin⟩ := generateEmbedding_ok hge
      have hlen' : ¬ emb.length ≠ 1536 := by
        simp [hlen, EMBEDDING_DIMENSIONS]
      simp only [createLink, hge, if_neg hlen'] at hmem
      rw [createTagsForLink_links] at hmem
      simp only [List.mem_append, List.mem_singleton] at hmem
      rcases hmem with hmem | rfl
      · exact Or.inl hmem
      · exact Or.inr ⟨emb, rfl, by simpa [EMBEDDING_DIMENSIONS] using hlen, hfin⟩

set_option maxRecDepth 100000 in
/-- Witness for C2: a well-formed all-zero provider vector is accepted
unchanged; a single-`NaN` vector is rejected. -/
theorem c2_generateEmbedding_validated_witness :
    ((List.replicate 1536 (JNum.fin 0)).length = 1536 ∧
      ∀ x ∈ List.replicate 1536 (JNum.fin 0), x.isFinite = true) ∧
    ∃ e, generateEmbedding (.ok [JNum.nan]) = .error e :=
  ⟨c2_generateEmbedding_validated.1 (.ok (List.replicate 1536 (JNum.fin 0)))
      (List.replicate 1536 (JNum.fin 0))
      (by rfl),
   c2_generateEmbedding_validated.2.1 [JNum.nan] (Or.inl (by decide))⟩

/-! ## C7 — content extraction always returns non-empty bounded text -/

/-- The truncation step never yields more than `maxLength + 3` characters
(`maxLength` content characters plus the `'...'` marker). -/
theorem truncated_length_le (c : List Char) :
    (truncated c).length ≤ CONTENT_MAX_LENGTH + 3 := by
  unfold truncated
  split
  · rename_i h
    rw [List.length_append, List.length_take]
    have h3 : (String.toList "...").length = 3 := by decide
    rw [h3]
    omega
  · rename_i h
    omega

theorem dropWhile_eq_self_noWs (l : List Char) (h : ∀ c ∈ l, isWs c = false) :
    l.dropWhile isWs = l := by
  cases l with
  | nil => rfl
  | cons c rest =>
    rw [List.dropWhile_cons_of_neg]
    simp [h c (List.mem_cons_self c rest)]

theorem jsTrim_eq_self_noWs (l : List Char) (h : ∀ c ∈ l, isWs c = false) :
    jsTrim l = l := by
  unfold jsTrim
  rw [dropWhile_eq_self_noWs l h,
    dropWhile_eq_self_noWs l.reverse (by intro c hc; exact h c (List.mem_reverse.mp hc)),
    List.reverse_reverse]

theorem collapseWsAux_eq_self_noWs (l : List Char) (h : ∀ c ∈ l, isWs c = false) :
    ∀ b, collapseWsAux b l = l := by
  induction l with
  | nil => intro b; rfl
  | cons c rest ih =>
    intro b
    unfold collapseWsAux
    rw [if_neg (by simp [h c (List.mem_cons_self c rest)]),
      ih (fun x hx => h x (List.mem_cons_of_mem c hx))]

/-- On an all-`'a'` container the whole pipeline is the identity. -/
theorem cleanedContent_replicate_a (n : Nat) (hn : n ≠ 0) :
    cleanedContent ⟨some (List.replicate n 'a'), [], []⟩ =
      List.replicate n 'a' := by
  have hno : ∀ c ∈ List.replicate n 'a', isWs c = false := by
    intro c hc
    rw [List.eq_of_mem_replicate hc]
    decide
  have hraw : rawContent ⟨some (List.replicate n 'a'), [], []⟩ =
      List.replicate n 'a' := by
    unfold rawContent
    simp only [jsTrim_eq_self_noWs _ hno]
    rw [if_neg]
    simp [List.isEmpty_iff, hn]
  unfold cleanedContent collapseWs
  rw [hraw, collapseWsAux_eq_self_noWs _ hno, jsTrim_eq_self_noWs _ hno]

/-- C7: `extractUrlContent` always returns a non-empty string — any fetch
or extraction failure yields the non-empty failure marker instead of an
error — and on a successful fetch the result is either the
could-not-extract marker or at most `maxLength + 3` characters, the
overlong content being cut at `maxLength` with `'...'` appended. -/
theorem c7_extractUrlContent_nonempty_bounded :
    (∀ (fetch : Except (List Char) Page) (url : List Char),
      extractUrlContent fetch url ≠ []) ∧
    (∀ (page : Page) (url : List Char),
      extractUrlContent (.ok page) url =
          String.toList "Could not extract meaningful content from " ++ url ∨
        (extractUrlContent (.ok page) url).length ≤ CONTENT_MAX_LENGTH + 3) ∧
    (∀ page : Page, CONTENT_MAX_LENGTH < (cleanedContent page).length →
      truncated (cleanedContent page) =
        (cleanedContent page).take CONTENT_MAX_LENGTH ++ String.toList "...") := by
  refine ⟨?_, ?_, ?_⟩
  · intro fetch url
    cases fetch with
    | error e =>
      intro hcontra
      have hlen := congrArg List.length hcontra
      have h1 : (String.toList "Failed to extract content from ").length = 31 := by decide
      simp only [extractUrlContent, List.length_append, List.length_nil, h1] at hlen
      omega
    | ok page =>
      simp only [extractUrlContent]
      split
      · intro hcontra
        have hlen := congrArg List.length hcontra
        have h1 : (String.toList "Could not extract meaningful content from ").length = 42 := by
          decide
        simp only [List.length_append, List.length_nil, h1] at hlen
        omega
      · rename_i h
        simpa [List.isEmpty_iff] using h
  · intro page url
    simp only [extractUrlContent]
    split
    · exact Or.inl rfl
    · exact Or.inr (truncated_length_le _)
  · intro page h
    exact if_pos h

/-- Witness for C7: a failed fetch, a tiny page, and a 9000-character page
that gets truncated. -/
theorem c7_extractUrlContent_nonempty_bounded_witness :
    extractUrlContent (.error ['x']) ['u'] ≠ [] ∧
    (extractUrlContent (.ok ⟨some ['a'], [], []⟩) ['u'] =
        String.toList "Could not extract meaningful content from " ++ ['u'] ∨
      (extractUrlContent (.ok ⟨some ['a'], [], []⟩) ['u']).length ≤
        CONTENT_MAX_LENGTH + 3) ∧
    truncated (cleanedContent ⟨some (List.replicate 9000 'a'), [], []⟩) =
      (cleanedContent ⟨some (List.replicate 9000 'a'), [], []⟩).take
        CONTENT_MAX_LENGTH ++ String.toList "..." :=
  ⟨c7_extractUrlContent_nonempty_bounded.1 (.error ['x']) ['u'],
   c7_extractUrlContent_nonempty_bounded.2.1 ⟨some ['a'], [], []⟩ ['u'],
   c7_extractUrlContent_nonempty_bounded.2.2 ⟨some (List.replicate 9000 'a'), [], []⟩
     (by rw [cleanedContent_replicate_a 9000 (by decide), List.length_replicate]; decide)⟩

/-! ## C8 — chat degrades, never errors out of generation -/

/-- C8: `generateChatResponse` is total and never returns an empty answer
(generation errors become a fixed apologetic fallback), and a chat run
whose vector search comes back empty still answers 200 with a non-empty
response and an empty `similarLinks` list. -/
theorem c8_chat_empty_retrieval_safe :
    (∀ (outcome : Except String (Option String)) (q : String)
      (ls : List (String × Option String × Option String)),
      generateChatResponse outcome q ls ≠ "") ∧
    (∀ (env : ChatEnv) (q : String) (uid : Nat) (links : List Link)
      (qe : List JNum),
      generateEmbedding env.embeddingOutcome = .ok qe →
      env.rpcError = false →
      match_links env.dist qe 0 5 uid links = [] →
      chatWithLinks env q uid links =
        ⟨200, some (generateChatResponse env.chatOutcome q []), some []⟩) := by
  constructor
  · intro outcome q ls
    cases outcome with
    | error e =>
      simp only [generateChatResponse]
      decide
    | ok content =>
      cases content with
      | none =>
        simp only [generateChatResponse]
        decide
      | some c =>
        simp only [generateChatResponse]
        split
        · decide
        · assumption
  · intro env q uid links qe h1 h2 h3
    simp [chatWithLinks, h1, h2, h3]

set_option maxRecDepth 100000 in
/-- Witness for C8: a concrete chat run over an empty store with a failing
chat-completion provider. -/
theorem c8_chat_empty_retrieval_safe_witness :
    generateChatResponse (.error "boom") "hi" [] ≠ "" ∧
    chatWithLinks
        ⟨.ok (List.replicate 1536 (JNum.fin 0)), false, .error "boom",
          fun _ _ => 0⟩ "hi" 0 [] =
      ⟨200, some (generateChatResponse (.error "boom") "hi" []), some []⟩ :=
  ⟨c8_chat_empty_retrieval_safe.1 (.error "boom") "hi" [],
   c8_chat_empty_retrieval_safe.2
     ⟨.ok (List.replicate 1536 (JNum.fin 0)), false, .error "boom", fun _ _ => 0⟩
     "hi" 0 [] (List.replicate 1536 (JNum.fin 0)) (by rfl) rfl rfl⟩

/-! ## C3/C4/C5 — retrieval ranker -/

/-- Decompose membership in a `match_links` result. -/
theorem mem_match_links {dist : List JNum → List JNum → ℚ} {q : List JNum}
    {τ : ℚ} {K uid : Nat} {links : List Link} {r : MatchRow}
    (hr : r ∈ match_links dist q τ K uid links) :
    ∃ l ∈ links, l.userId = uid ∧ l.embedding.isSome = true ∧
      τ < 1 - dist (l.embedding.getD []) q ∧ rowOf dist q l = r := by
  unfold match_links sortRows at hr
  have hr1 := List.mem_of_mem_take hr
  have hr2 := (List.perm_insertionSort rowGE _).mem_iff.mp hr1
  obtain ⟨l, hl, rfl⟩ := List.mem_map.mp hr2
  unfold matchFilter at hl
  rw [List.mem_filter] at hl
  obtain ⟨hmem, hcond⟩ := hl
  simp only [Bool.and_eq_true, beq_iff_eq, decide_eq_true_eq] at hcond
  exact ⟨l, hmem, hcond.1.1, hcond.1.2, hcond.2, rfl⟩

/-- C3: for every owner, query embedding, count `K` and floor `τ`, the
`match_links` result is sorted by non-increasing similarity, every
returned similarity is at least `τ`, at most `K` rows come back, and every
row stems from a record of that owner with a non-null embedding. -/
theorem c3_match_links_sorted_scoped (dist : List JNum → List JNum → ℚ)
    (q : List JNum) (τ : ℚ) (K uid : Nat) (links : List Link) :
    (match_links dist q τ K uid links).Pairwise
      (fun a b => b.similarity ≤ a.similarity) ∧
    (∀ r ∈ match_links dist q τ K uid links, τ ≤ r.similarity) ∧
    (match_links dist q τ K uid links).length ≤ K ∧
    (∀ r ∈ match_links dist q τ K uid links, ∃ l ∈ links,
      l.userId = uid ∧ l.embedding.isSome = true ∧ rowOf dist q l = r) := by
  refine ⟨?_, ?_, ?_, ?_⟩
  · have hs : (List.insertionSort rowGE
        ((matchFilter dist q τ uid links).map (rowOf dist q))).Pairwise rowGE :=
      List.sorted_insertionSort rowGE _
    exact hs.sublist (List.take_sublist _ _)
  · intro r hr
    obtain ⟨l, -, -, -, hτ, rfl⟩ := mem_match_links hr
    exact le_of_lt hτ
  · exact List.length_take_le _ _
  · intro r hr
    obtain ⟨l, hl, huid, hemb, -, hrow⟩ := mem_match_links hr
    exact ⟨l, hl, huid, hemb, hrow⟩

/-- Everything-is-equidistant store capability, for concrete runs. -/
def distZero : List JNum → List JNum → ℚ := fun _ _ => 0

/-- Distance-one store capability: every similarity comes out `0`. -/
def distOne : List JNum → List JNum → ℚ := fun _ _ => 1

/-- An old record of user 0. -/
def linkA : Link :=
  ⟨1, "https://a.example", none, none, none, none, some [JNum.fin 1], 0, 0⟩

/-- A newer record of user 0 with the same embedding as `linkA`. -/
def linkB : Link :=
  ⟨2, "https://b.example", none, none, none, none, some [JNum.fin 1], 0, 10⟩

/-- Witness for C3: a concrete one-record run. -/
theorem c3_match_links_sorted_scoped_witness :
    (0 : ℚ) ≤ (rowOf distZero [] linkA).similarity ∧
    (match_links distZero [] 0 5 0 [linkA]).length ≤ 5 :=
  ⟨(c3_match_links_sorted_scoped distZero [] 0 5 0 [linkA]).2.1
      (rowOf distZero [] linkA)
      (by rw [show match_links distZero [] 0 5 0 [linkA] =
            [rowOf distZero [] linkA] by
          norm_num [match_links, matchFilter, sortRows, rowOf, linkA,
            distZero, List.insertionSort]]
          exact List.mem_singleton.mpr rfl),
   (c3_match_links_sorted_scoped distZero [] 0 5 0 [linkA]).2.2.1⟩

/-- The `created_at` of the link row carrying a given id (`0` when the id
is unknown; `match_links` result rows do not carry `created_at`). -/
def createdAtOf (links : List Link) (id : Nat) : Nat :=
  ((links.find? (fun l => l.id == id)).map (fun l => l.createdAt)).getD 0

/-- The C4 claim as a predicate on one retrieval run: among the returned
rows, whenever an earlier row has the same similarity as a later row, the
earlier one is the more recently created record. -/
def tieBreakByRecency (dist : List JNum → List JNum → ℚ) (q : List JNum)
    (τ : ℚ) (K uid : Nat) (links : List Link) : Prop :=
  (match_links dist q τ K uid links).Pairwise (fun a b =>
    a.similarity = b.similarity →
      createdAtOf links b.id ≤ createdAtOf links a.id)

/-- C4 counterexample: `match_links` has no `created_at` tie-break — with
two equally similar records the older, earlier-scanned one is returned
first. -/
theorem c4_counterexample :
    ¬ tieBreakByRecency distZero [] 0 5 0 [linkA, linkB] := by
  intro h
  rw [tieBreakByRecency] at h
  have heq : match_links distZero [] 0 5 0 [linkA, linkB] =
      [rowOf distZero [] linkA, rowOf distZero [] linkB] := by
    norm_num [match_links, matchFilter, sortRows, rowOf, linkA, linkB,
      distZero, List.insertionSort, List.orderedInsert, rowGE]
  rw [heq] at h
  have h2 := (List.pairwise_cons.mp h).1 (rowOf distZero [] linkB) (by simp)
  have h3 := h2 rfl
  norm_num [createdAtOf, rowOf, linkA, linkB] at h3

theorem filter_orderedInsert_sim (v : ℚ) (a : MatchRow) :
    ∀ l : List MatchRow,
      (List.orderedInsert rowGE a l).filter (fun r => r.similarity == v) =
        if a.similarity = v then
          a :: l.filter (fun r => r.similarity == v)
        else l.filter (fun r => r.similarity == v)
  | [] => by
    by_cases h : a.similarity = v <;>
      simp [List.orderedInsert, List.filter_singleton, beq_iff_eq, h]
  | b :: t => by
    rw [List.orderedInsert]
    by_cases hab : rowGE a b
    · rw [if_pos hab]
      by_cases h : a.similarity = v <;> simp [List.filter_cons, h]
    · rw [if_neg hab]
      by_cases h : a.similarity = v
      · have hbv : (b.similarity == v) = false := by
          simp only [beq_eq_false_iff_ne]
          intro hb
          exact hab (by rw [rowGE, hb, h])
        simp [List.filter_cons, hbv, filter_orderedInsert_sim v a t, h]
      · by_cases hb : b.similarity = v <;>
          simp [List.filter_cons, hb, filter_orderedInsert_sim v a t, h]

/-- The sort behind `ORDER BY similarity DESC` is stable: the rows at any
fixed similarity value keep their scan order. -/
theorem filter_insertionSort_sim (v : ℚ) :
    ∀ l : List MatchRow,
      (List.insertionSort rowGE l).filter (fun r => r.similarity == v) =
        l.filter (fun r => r.similarity == v)
  | [] => rfl
  | a :: l => by
    rw [show List.insertionSort rowGE (a :: l) =
        List.orderedInsert rowGE a (List.insertionSort rowGE l) from rfl]
    rw [filter_orderedInsert_sim, filter_insertionSort_sim v l]
    by_cases h : a.similarity = v <;> simp [List.filter_cons, h]

/-- C4 amended: `match_links` applies no recency tie-break at all; when
the limit does not truncate, rows of any fixed similarity value appear in
the order the owner's records are scanned, with `created_at` never
consulted. -/
theorem c4_match_links_ties_keep_scan_order
    (dist : List JNum → List JNum → ℚ) (q : List JNum) (τ : ℚ)
    (K uid : Nat) (links : List Link) (v : ℚ)
    (hK : ((matchFilter dist q τ uid links).map (rowOf dist q)).length ≤ K) :
    (match_links dist q τ K uid links).filter (fun r => r.similarity == v) =
      ((matchFilter dist q τ uid links).map (rowOf dist q)).filter
        (fun r => r.similarity == v) := by
  unfold match_links sortRows
  rw [List.take_of_length_le
    (by rw [(List.perm_insertionSort rowGE _).length_eq]; exact hK)]
  exact filter_insertionSort_sim v _

/-- Witness for C4's amended theorem: the two-equal-rows store. -/
theorem c4_match_links_ties_keep_scan_order_witness :
    (match_links distZero [] 0 5 0 [linkA, linkB]).filter
        (fun r => r.similarity == (1 : ℚ)) =
      ((matchFilter distZero [] 0 0 [linkA, linkB]).map
        (rowOf distZero [])).filter (fun r => r.similarity == (1 : ℚ)) :=
  c4_match_links_ties_keep_scan_order distZero [] 0 5 0 [linkA, linkB] 1
    (by norm_num [matchFilter, linkA, linkB, distZero])

/-- C5 counterexample: with `τ = 0` and a single-record owner (fewer than
`K = 5` records), a record at similarity exactly `0` is dropped — the
strict `> match_threshold` comparison excludes it — so not all of the
owner's records come back. -/
theorem c5_counterexample :
    ([linkA].filter (fun l => l.userId == 0)).length < 5 ∧
    ¬ (∀ l ∈ [linkA].filter (fun l => l.userId == 0),
        ∃ r ∈ match_links distOne [] 0 5 0 [linkA], r.id = l.id) := by
  constructor
  · decide
  · intro h
    have heq : match_links distOne [] 0 5 0 [linkA] = [] := by
      norm_num [match_links, matchFilter, sortRows, rowOf, linkA, distOne,
        List.insertionSort]
    obtain ⟨r, hr, -⟩ := h linkA (by decide)
    rw [heq] at hr
    exact absurd hr (List.not_mem_nil r)

/-- C5 amended: with `τ = 0` and fewer owner records than `K`, the ranker
returns — without error — exactly the owner's records that have a
non-null embedding *and* strictly positive similarity; rows at similarity
`≤ 0` or without an embedding are omitted. -/
theorem c5_match_links_small_store_positive
    (dist : List JNum → List JNum → ℚ) (q : List JNum) (K uid : Nat)
    (links : List Link)
    (h : (links.filter (fun l => l.userId == uid)).length < K) :
    (match_links dist q 0 K uid links).Perm
      ((matchFilter dist q 0 uid links).map (rowOf dist q)) := by
  have hsub : List.Sublist (matchFilter dist q 0 uid links)
      (links.filter (fun l => l.userId == uid)) := by
    unfold matchFilter
    apply List.monotone_filter_right
    intro a ha
    simp only [Bool.and_eq_true] at ha
    exact ha.1.1
  have hlen : ((matchFilter dist q 0 uid links).map (rowOf dist q)).length ≤ K := by
    rw [List.length_map]
    exact le_of_lt (lt_of_le_of_lt hsub.length_le h)
  unfold match_links sortRows
  rw [List.take_of_length_le
    (by rw [(List.perm_insertionSort rowGE _).length_eq]; exact hlen)]
  exact List.perm_insertionSort rowGE _

/-- Witness for C5's amended theorem: one positive-similarity record. -/
theorem c5_match_links_small_store_positive_witness :
    (match_links distZero [] 0 5 0 [linkA]).Perm
      ((matchFilter distZero [] 0 0 [linkA]).map (rowOf distZero [])) :=
  c5_match_links_small_store_positive distZero [] 5 0 [linkA] (by decide)

/-! ## Tag upsert machinery (C9, also used by C1/C6/C10) -/

theorem upsertTag_found {n : String} {s : Store} {t : TagRow}
    (h : s.tags.find? (fun x => x.name == n) = some t) :
    upsertTag n s = (t, s) := by
  unfold upsertTag
  rw [h]

theorem upsertTag_new {n : String} {s : Store}
    (h : s.tags.find? (fun x => x.name == n) = none) :
    upsertTag n s = (⟨s.nextId, n⟩,
      { s with tags := s.tags ++ [⟨s.nextId, n⟩], nextId := s.nextId + 1 }) := by
  unfold upsertTag
  rw [h]

theorem upsertTag_tags_mono {n : String} {s : Store} {t : TagRow}
    (h : t ∈ s.tags) : t ∈ ((upsertTag n s).2).tags := by
  unfold upsertTag
  split
  · exact h
  · exact List.mem_append.mpr (Or.inl h)

theorem upsertTag_tags_cases {n : String} {s : Store} {t : TagRow}
    (ht : t ∈ ((upsertTag n s).2).tags) : t ∈ s.tags ∨ t.name = n := by
  unfold upsertTag at ht
  split at ht
  · exact Or.inl ht
  · rcases List.mem_append.mp ht with h | h
    · exact Or.inl h
    · right
      rw [List.mem_singleton.mp h]

theorem upsertTag_find?_stable {m n : String} {s : Store} {t : TagRow}
    (h : s.tags.find? (fun x => x.name == m) = some t) :
    ((upsertTag n s).2).tags.find? (fun x => x.name == m) = some t := by
  unfold upsertTag
  split
  · exact h
  · exact find?_some_append _ h

theorem insertLinkTag_mem {a b : Nat} {s : Store} {p : LinkTag}
    (h : p ∈ s.linkTags) : p ∈ (insertLinkTag a b s).linkTags := by
  unfold insertLinkTag
  split
  · exact h
  · exact List.mem_append.mpr (Or.inl h)

theorem insertLinkTag_mem_cases {a b : Nat} {s : Store} {p : LinkTag}
    (hp : p ∈ (insertLinkTag a b s).linkTags) :
    p ∈ s.linkTags ∨ p = ⟨a, b⟩ := by
  unfold insertLinkTag at hp
  split at hp
  · exact Or.inl hp
  · rcases List.mem_append.mp hp with h | h
    · exact Or.inl h
    · exact Or.inr (List.mem_singleton.mp h)

theorem insertLinkTag_self_mem (a b : Nat) (s : Store) :
    (⟨a, b⟩ : LinkTag) ∈ (insertLinkTag a b s).linkTags := by
  unfold insertLinkTag
  split
  · rename_i h
    obtain ⟨p, hpm, hpc⟩ := List.any_eq_true.mp h
    simp only [Bool.and_eq_true, beq_iff_eq] at hpc
    obtain ⟨h1, h2⟩ := hpc
    have hp : p = ⟨a, b⟩ := by
      cases p
      simp_all
    rwa [hp] at hpm
  · exact List.mem_append.mpr (Or.inr (List.mem_singleton.mpr rfl))

/-- `createTagsForLink` has made a name stick for a link: a tag row found
under that name exists and the connection row is present. -/
def tagDone (lid : Nat) (name : String) (s : Store) : Prop :=
  ∃ t, s.tags.find? (fun x => x.name == name) = some t ∧
    (⟨lid, t.id⟩ : LinkTag) ∈ s.linkTags

theorem tagStep_preserves_done {lid : Nat} {m : String} {s : Store}
    (n : String) (h : tagDone lid m s) : tagDone lid m (tagStep lid s n) := by
  obtain ⟨t, hf, hm⟩ := h
  refine ⟨t, ?_, ?_⟩
  · rw [tagStep, insertLinkTag_tags]
    exact upsertTag_find?_stable hf
  · rw [tagStep]
    apply insertLinkTag_mem
    rw [upsertTag_linkTags]
    exact hm

theorem tagStep_establishes_done (lid : Nat) (n : String) (s : Store) :
    tagDone lid n (tagStep lid s n) := by
  cases hf : s.tags.find? (fun x => x.name == n) with
  | some t =>
    rw [tagStep, upsertTag_found hf]
    exact ⟨t, by rw [insertLinkTag_tags]; exact hf, insertLinkTag_self_mem _ _ _⟩
  | none =>
    rw [tagStep, upsertTag_new hf]
    unfold tagDone
    refine ⟨(⟨s.nextId, n⟩ : TagRow), ?_, insertLinkTag_self_mem _ _ _⟩
    rw [insertLinkTag_tags]
    dsimp only
    rw [find?_or_append _ hf]
    simp [List.find?]

theorem tagStep_noop {lid : Nat} {n : String} {s : Store}
    (h : tagDone lid n s) : tagStep lid s n = s := by
  obtain ⟨t, hf, hm⟩ := h
  have hany : (s.linkTags.any fun p => p.linkId == lid && p.tagId == t.id) = true :=
    List.any_eq_true.mpr ⟨⟨lid, t.id⟩, hm, by simp⟩
  rw [tagStep, upsertTag_found hf]
  show insertLinkTag lid t.id s = s
  unfold insertLinkTag
  rw [if_pos hany]

theorem createTagsForLink_preserves_done {lid : Nat} {m : String} :
    ∀ (names : List String) (s : Store), tagDone lid m s →
      tagDone lid m (createTagsForLink lid names s)
  | [], _, h => h
  | n :: rest, s, h => by
    rw [createTagsForLink_cons]
    exact createTagsForLink_preserves_done rest _ (tagStep_preserves_done n h)

theorem createTagsForLink_establishes_done {lid : Nat} :
    ∀ (names : List String) (s : Store) (n : String), n ∈ names →
      tagDone lid n (createTagsForLink lid names s)
  | [], _, _, hn => absurd hn (List.not_mem_nil _)
  | x :: rest, s, n, hn => by
    rw [createTagsForLink_cons]
    rcases List.mem_cons.mp hn with rfl | hn
    · exact createTagsForLink_preserves_done rest _
        (tagStep_establishes_done lid n s)
    · exact createTagsForLink_establishes_done rest _ n hn

theorem createTagsForLink_noop {lid : Nat} :
    ∀ (names : List String) (s : Store),
      (∀ n ∈ names, tagDone lid n s) → createTagsForLink lid names s = s
  | [], _, _ => rfl
  | x :: rest, s, h => by
    rw [createTagsForLink_cons, tagStep_noop (h x (List.mem_cons_self x rest))]
    exact createTagsForLink_noop rest s (fun n hn => h n (List.mem_cons_of_mem x hn))

/-- Number of `tags` rows carrying a given name. -/
def countTagName (n : String) (s : Store) : Nat :=
  (s.tags.filter (fun t => t.name == n)).length

theorem count_le_one_of_nodup_names {n : String} :
    ∀ l : List TagRow, (l.map (fun t => t.name)).Nodup →
      (l.filter (fun t => t.name == n)).length ≤ 1 := by
  intro l
  induction l with
  | nil => intro _; simp
  | cons t rest ih =>
    intro hnd
    rw [List.map_cons, List.nodup_cons] at hnd
    rw [List.filter_cons]
    split
    · rename_i ht
      rw [beq_iff_eq] at ht
      have hrest : rest.filter (fun x => x.name == n) = [] := by
        rw [List.filter_eq_nil_iff]
        intro x hx hxn
        rw [beq_iff_eq] at hxn
        have hx' : x.name ∈ rest.map (fun t => t.name) :=
          List.mem_map_of_mem (fun t => t.name) hx
        rw [hxn, ← ht] at hx'
        exact hnd.1 hx'
      rw [hrest]
      simp
    · exact le_trans (ih hnd.2) (by omega)

theorem name_not_mem_of_find?_none {n : String} {l : List TagRow}
    (h : l.find? (fun x => x.name == n) = none) :
    n ∉ l.map (fun t => t.name) := by
  intro hmem
  obtain ⟨t, ht, htn⟩ := List.mem_map.mp hmem
  have hne := List.find?_eq_none.mp h t ht
  rw [htn] at hne
  simp at hne

theorem upsertTag_nodup_names {n : String} {s : Store}
    (h : (s.tags.map (fun t => t.name)).Nodup) :
    (((upsertTag n s).2).tags.map (fun t => t.name)).Nodup := by
  unfold upsertTag
  split
  · exact h
  · rename_i hf
    rw [List.map_append]
    simp only [List.map_cons, List.map_nil]
    rw [List.nodup_append]
    exact ⟨h, List.nodup_singleton n,
      by simpa [List.disjoint_singleton] using name_not_mem_of_find?_none hf⟩

theorem tagStep_nodup_names {lid : Nat} {n : String} {s : Store}
    (h : (s.tags.map (fun t => t.name)).Nodup) :
    ((tagStep lid s n).tags.map (fun t => t.name)).Nodup := by
  rw [tagStep, insertLinkTag_tags]
  exact upsertTag_nodup_names h

theorem createTagsForLink_nodup_names {lid : Nat} :
    ∀ (names : List String) (s : Store),
      (s.tags.map (fun t => t.name)).Nodup →
      ((createTagsForLink lid names s).tags.map (fun t => t.name)).Nodup
  | [], _, h => h
  | x :: rest, s, h => by
    rw [createTagsForLink_cons]
    exact createTagsForLink_nodup_names rest _ (tagStep_nodup_names h)

theorem insertLinkTag_nodup {a b : Nat} {s : Store}
    (h : s.linkTags.Nodup) : (insertLinkTag a b s).linkTags.Nodup := by
  unfold insertLinkTag
  split
  · exact h
  · rename_i hany
    have hnm : (⟨a, b⟩ : LinkTag) ∉ s.linkTags := by
      intro hmem
      rw [Bool.not_eq_true, List.any_eq_false] at hany
      exact hany ⟨a, b⟩ hmem (by simp)
    simp [List.nodup_append, h, hnm]

theorem tagStep_linkTags_nodup {lid : Nat} {n : String} {s : Store}
    (h : s.linkTags.Nodup) : (tagStep lid s n).linkTags.Nodup := by
  rw [tagStep]
  apply insertLinkTag_nodup
  rw [upsertTag_linkTags]
  exact h

theorem createTagsForLink_linkTags_nodup {lid : Nat} :
    ∀ (names : List String) (s : Store), s.linkTags.Nodup →
      (createTagsForLink lid names s).linkTags.Nodup
  | [], _, h => h
  | x :: rest, s, h => by
    rw [createTagsForLink_cons]
    exact createTagsForLink_linkTags_nodup rest _ (tagStep_linkTags_nodup h)

theorem count_ge_one_of_find?_some {n : String} {s : Store} {t : TagRow}
    (h : s.tags.find? (fun x => x.name == n) = some t) :
    1 ≤ countTagName n s := by
  have hp := List.find?_some h
  have ht : t ∈ s.tags.filter (fun x => x.name == n) :=
    List.mem_filter.mpr ⟨List.mem_of_find?_eq_some h, by simpa using hp⟩
  have := List.length_pos.mpr (List.ne_nil_of_mem ht)
  unfold countTagName
  omega

theorem countTagName_insertLinkTag (n : String) (a b : Nat) (s : Store) :
    countTagName n (insertLinkTag a b s) = countTagName n s := by
  unfold countTagName
  rw [insertLinkTag_tags]

theorem count_one_of_fresh_upsert {n : String} {s : Store}
    (hf : s.tags.find? (fun x => x.name == n) = none) :
    countTagName n ((upsertTag n s).2) = 1 := by
  rw [upsertTag_new hf]
  unfold countTagName
  dsimp only
  rw [List.filter_append]
  have h0 : s.tags.filter (fun t => t.name == n) = [] :=
    List.filter_eq_nil_iff.mpr
      (fun t ht => by simpa using List.find?_eq_none.mp hf t ht)
  rw [h0]
  simp [List.filter]

/-- One store operation of a `createTagsForLink` caller, as seen by the
database: the atomic tag upsert, or the conflict-free link-to-tag insert.
(The insert resolves the tag id by name: in the scenarios considered the
caller's own upsert has already run, so the unique row under that name is
exactly the row whose id the JavaScript captured from its upsert.) -/
inductive TagOp where
  | upsert (name : String)
  | link (linkId : Nat) (name : String)
deriving DecidableEq, Repr

/-- Execute one operation against the store. -/
def applyTagOp (s : Store) : TagOp → Store
  | .upsert n => (upsertTag n s).2
  | .link lid n =>
    match s.tags.find? (fun t => t.name == n) with
    | some t => insertLinkTag lid t.id s
    | none => s

/-- Execute a sequence of operations. -/
def applyTagOps (ops : List TagOp) (s : Store) : Store :=
  ops.foldl applyTagOp s

/-- `Interleave l1 l2 ops`: `ops` interleaves the two callers' operation
sequences, preserving each caller's order — the store serialises the
atomic operations of two concurrent requests in some such order. -/
inductive Interleave : List TagOp → List TagOp → List TagOp → Prop where
  | nil : Interleave [] [] []
  | left {x : TagOp} {xs ys zs : List TagOp} :
      Interleave xs ys zs → Interleave (x :: xs) ys (x :: zs)
  | right {y : TagOp} {xs ys zs : List TagOp} :
      Interleave xs ys zs → Interleave xs (y :: ys) (y :: zs)

theorem interleave_mem {l1 l2 ops : List TagOp} (h : Interleave l1 l2 ops) :
    ∀ x ∈ ops, x ∈ l1 ∨ x ∈ l2 := by
  induction h with
  | nil => intro x hx; exact absurd hx (List.not_mem_nil x)
  | left h ih =>
    intro x hx
    rcases List.mem_cons.mp hx with rfl | hx
    · exact Or.inl (List.mem_cons_self _ _)
    · rcases ih x hx with h' | h'
      · exact Or.inl (List.mem_cons_of_mem _ h')
      · exact Or.inr h'
  | right h ih =>
    intro x hx
    rcases List.mem_cons.mp hx with rfl | hx
    · exact Or.inr (List.mem_cons_self _ _)
    · rcases ih x hx with h' | h'
      · exact Or.inl h'
      · exact Or.inr (List.mem_cons_of_mem _ h')

theorem applyTagOp_count_nodup {n : String} {s : Store} {op : TagOp}
    (hop : ∀ m, op = .upsert m → m = n)
    (h1 : countTagName n s = 1)
    (hnd : (s.tags.map (fun t => t.name)).Nodup) :
    countTagName n (applyTagOp s op) = 1 ∧
      ((applyTagOp s op).tags.map (fun t => t.name)).Nodup := by
  cases op with
  | upsert m =>
    have hm : m = n := hop m rfl
    subst hm
    show countTagName m ((upsertTag m s).2) = 1 ∧
      ((((upsertTag m s).2).tags).map (fun t => t.name)).Nodup
    cases hf : s.tags.find? (fun x => x.name == m) with
    | some t =>
      rw [upsertTag_found hf]
      exact ⟨h1, hnd⟩
    | none =>
      exfalso
      have h0 : s.tags.filter (fun t => t.name == m) = [] :=
        List.filter_eq_nil_iff.mpr
          (fun t ht => by simpa using List.find?_eq_none.mp hf t ht)
      rw [countTagName, h0] at h1
      simp at h1
  | link lid m =>
    constructor
    · simp only [applyTagOp]
      split
      · rw [countTagName_insertLinkTag]
        exact h1
      · exact h1
    · simp only [applyTagOp]
      split
      · rw [insertLinkTag_tags]
        exact hnd
      · exact hnd

theorem applyTagOps_count_nodup {n : String} :
    ∀ (ops : List TagOp) (s : Store),
      (∀ op ∈ ops, ∀ m, op = TagOp.upsert m → m = n) →
      countTagName n s = 1 →
      (s.tags.map (fun t => t.name)).Nodup →
      countTagName n (applyTagOps ops s) = 1
  | [], _, _, h1, _ => h1
  | op :: rest, s, hops, h1, hnd => by
    have hstep := applyTagOp_count_nodup
      (hops op (List.mem_cons_self op rest)) h1 hnd
    exact applyTagOps_count_nodup rest (applyTagOp s op)
      (fun o ho => hops o (List.mem_cons_of_mem op ho)) hstep.1 hstep.2

/-- C9: tag upsert-and-link is idempotent — upserting an existing name is
a no-op returning the existing row, running `createTagsForLink` twice with
the same arguments equals running it once (the model is total: neither run
errors), afterwards each requested name has exactly one `tags` row (given
the UNIQUE-constraint invariant) and the `link_to_tag` rows stay free of
duplicates — and under any serialisation of two concurrent callers
upserting the same new name, exactly one `tags` row with that name
results, with no error on either caller. -/
theorem c9_tag_upsert_idempotent_concurrent :
    (∀ (s : Store) (n : String) (t : TagRow),
      s.tags.find? (fun x => x.name == n) = some t →
      upsertTag n s = (t, s)) ∧
    (∀ (lid : Nat) (names : List String) (s : Store),
      createTagsForLink lid names (createTagsForLink lid names s) =
        createTagsForLink lid names s) ∧
    (∀ (lid : Nat) (names : List String) (s : Store) (n : String),
      (s.tags.map (fun t => t.name)).Nodup → n ∈ names →
      countTagName n (createTagsForLink lid names s) = 1) ∧
    (∀ (lid : Nat) (names : List String) (s : Store),
      s.linkTags.Nodup → (createTagsForLink lid names s).linkTags.Nodup) ∧
    (∀ (ops : List TagOp) (s : Store) (n : String) (lA lB : Nat),
      Interleave [TagOp.upsert n, TagOp.link lA n]
        [TagOp.upsert n, TagOp.link lB n] ops →
      s.tags.find? (fun x => x.name == n) = none →
      (s.tags.map (fun t => t.name)).Nodup →
      countTagName n (applyTagOps ops s) = 1) := by
  refine ⟨?_, ?_, ?_, ?_, ?_⟩
  · intro s n t h
    exact upsertTag_found h
  · intro lid names s
    exact createTagsForLink_noop names _
      (fun n hn => createTagsForLink_establishes_done names s n hn)
  · intro lid names s n hnd hn
    obtain ⟨t, hf, -⟩ := @createTagsForLink_establishes_done lid names s n hn
    have hle := @count_le_one_of_nodup_names n
      (createTagsForLink lid names s).tags
      (@createTagsForLink_nodup_names lid names s hnd)
    have hge := count_ge_one_of_find?_some hf
    unfold countTagName at hge ⊢
    omega
  · intro lid names s h
    exact @createTagsForLink_linkTags_nodup lid names s h
  · intro ops s n lA lB hil hf hnd
    have hopsof : ∀ (zs : List TagOp) (l1 l2 : List TagOp),
        Interleave l1 l2 zs →
        (∀ x ∈ l1, ∀ m, x = TagOp.upsert m → m = n) →
        (∀ x ∈ l2, ∀ m, x = TagOp.upsert m → m = n) →
        ∀ op ∈ zs, ∀ m, op = TagOp.upsert m → m = n := by
      intro zs l1 l2 h hl1 hl2 op hop m hm
      rcases interleave_mem h op hop with h' | h'
      · exact hl1 op h' m hm
      · exact hl2 op h' m hm
    have hcount1 : countTagName n ((upsertTag n s).2) = 1 :=
      count_one_of_fresh_upsert hf
    have hnodup1 := @upsertTag_nodup_names n s hnd
    cases hil with
    | left h =>
      refine applyTagOps_count_nodup _ ((upsertTag n s).2)
        (hopsof _ _ _ h ?_ ?_) hcount1 hnodup1
      · intro x hx m hm
        rw [List.mem_singleton.mp hx] at hm
        exact absurd hm (by simp)
      · intro x hx m hm
        rcases List.mem_cons.mp hx with rfl | hx
        · injection hm with h'
          exact h'.symm
        · rw [List.mem_singleton.mp hx] at hm
          exact absurd hm (by simp)
    | right h =>
      refine applyTagOps_count_nodup _ ((upsertTag n s).2)
        (hopsof _ _ _ h ?_ ?_) hcount1 hnodup1
      · intro x hx m hm
        rcases List.mem_cons.mp hx with rfl | hx
        · injection hm with h'
          exact h'.symm
        · rw [List.mem_singleton.mp hx] at hm
          exact absurd hm (by simp)
      · intro x hx m hm
        rw [List.mem_singleton.mp hx] at hm
        exact absurd hm (by simp)

/-- Witness for C9: a concrete store with an existing `Blog` tag, a fresh
store for the double-run case, and a serialisation of two concurrent
callers of a new name `X`. -/
theorem c9_tag_upsert_idempotent_concurrent_witness :
    upsertTag "Blog" ⟨[], [⟨5, "Blog"⟩], [], 6, 0⟩ =
      (⟨5, "Blog"⟩, ⟨[], [⟨5, "Blog"⟩], [], 6, 0⟩) ∧
    createTagsForLink 1 ["Tool"]
        (createTagsForLink 1 ["Tool"] ⟨[], [], [], 0, 0⟩) =
      createTagsForLink 1 ["Tool"] ⟨[], [], [], 0, 0⟩ ∧
    countTagName "Tool" (createTagsForLink 1 ["Tool"] ⟨[], [], [], 0, 0⟩) = 1 ∧
    (createTagsForLink 1 ["Tool"] ⟨[], [], [], 0, 0⟩).linkTags.Nodup ∧
    countTagName "X" (applyTagOps
      [TagOp.upsert "X", TagOp.link 1 "X", TagOp.upsert "X", TagOp.link 2 "X"]
      ⟨[], [], [], 0, 0⟩) = 1 :=
  ⟨c9_tag_upsert_idempotent_concurrent.1 ⟨[], [⟨5, "Blog"⟩], [], 6, 0⟩ "Blog"
      ⟨5, "Blog"⟩ (by decide),
   c9_tag_upsert_idempotent_concurrent.2.1 1 ["Tool"] ⟨[], [], [], 0, 0⟩,
   c9_tag_upsert_idempotent_concurrent.2.2.1 1 ["Tool"] ⟨[], [], [], 0, 0⟩
     "Tool" (by decide) (by decide),
   c9_tag_upsert_idempotent_concurrent.2.2.2.1 1 ["Tool"] ⟨[], [], [], 0, 0⟩
     (by decide),
   c9_tag_upsert_idempotent_concurrent.2.2.2.2
     [TagOp.upsert "X", TagOp.link 1 "X", TagOp.upsert "X", TagOp.link 2 "X"]
     ⟨[], [], [], 0, 0⟩ "X" 1 2
     (Interleave.left (Interleave.left (Interleave.right
       (Interleave.right Interleave.nil))))
     (by decide) (by decide)⟩

/-! ## C10 — updateLink frame conditions -/

theorem deleteTagsForLink_links (lid : Nat) (s : Store) :
    (deleteTagsForLink lid s).links = s.links := rfl

theorem mem_deleteTagsForLink {lid : Nat} {s : Store} {p : LinkTag} :
    p ∈ (deleteTagsForLink lid s).linkTags ↔
      p ∈ s.linkTags ∧ p.linkId ≠ lid := by
  unfold deleteTagsForLink
  simp [List.mem_filter]

theorem createTagsForLink_linkTags_mono {lid : Nat} :
    ∀ (names : List String) (s : Store) (p : LinkTag), p ∈ s.linkTags →
      p ∈ (createTagsForLink lid names s).linkTags
  | [], _, _, h => h
  | n :: rest, s, p, h => by
    rw [createTagsForLink_cons]
    refine createTagsForLink_linkTags_mono rest _ p ?_
    rw [tagStep]
    apply insertLinkTag_mem
    rw [upsertTag_linkTags]
    exact h

theorem createTagsForLink_linkTags_cases {lid : Nat} :
    ∀ (names : List String) (s : Store) (p : LinkTag),
      p ∈ (createTagsForLink lid names s).linkTags →
      p ∈ s.linkTags ∨ p.linkId = lid
  | [], _, _, h => Or.inl h
  | n :: rest, s, p, h => by
    rw [createTagsForLink_cons] at h
    rcases createTagsForLink_linkTags_cases rest _ p h with h' | h'
    · rw [tagStep] at h'
      rcases insertLinkTag_mem_cases h' with h'' | h''
      · rw [upsertTag_linkTags] at h''
        exact Or.inl h''
      · right
        rw [h'']
    · exact Or.inr h'

/-- C10: `updateLink` on an owned record changes only the record's
`title`, `summary` and this record's tag connections: every link row keeps
its `id`, `url`, `image`, `domain`, `embedding` (never regenerated),
`userId` and `createdAt`; rows of other links are untouched entirely, and
link-to-tag rows of other links are exactly preserved. -/
theorem c10_updateLink_frame (s : Store) (uid lid : Nat)
    (title summary : Option String) (tags : Option (List String)) :
    (∀ l ∈ s.links,
      ∃ l' ∈ ((updateLink s uid lid title summary tags).2).links,
        l'.id = l.id ∧ l'.url = l.url ∧ l'.image = l.image ∧
        l'.domain = l.domain ∧ l'.embedding = l.embedding ∧
        l'.userId = l.userId ∧ l'.createdAt = l.createdAt) ∧
    (∀ l ∈ s.links, l.id ≠ lid →
      l ∈ ((updateLink s uid lid title summary tags).2).links) ∧
    (∀ p ∈ s.linkTags, p.linkId ≠ lid →
      p ∈ ((updateLink s uid lid title summary tags).2).linkTags) ∧
    (∀ p ∈ ((updateLink s uid lid title summary tags).2).linkTags,
      p.linkId ≠ lid → p ∈ s.linkTags) := by
  cases hfind : s.links.find? (fun l => l.id == lid && l.userId == uid) with
  | none =>
    simp only [updateLink, hfind]
    exact ⟨fun l hl => ⟨l, hl, rfl, rfl, rfl, rfl, rfl, rfl, rfl⟩,
      fun l hl _ => hl, fun p hp _ => hp, fun p hp _ => hp⟩
  | some l0 =>
    have hlinks : ((updateLink s uid lid title summary tags).2).links =
        s.links.map (fun l =>
          if l.id == lid then applyUpdate title summary l else l) := by
      simp only [updateLink, hfind]
      cases tags with
      | none => rfl
      | some tagList =>
        rw [createTagsForLink_links, deleteTagsForLink_links]
    refine ⟨?_, ?_, ?_, ?_⟩
    · intro l hl
      rw [hlinks]
      by_cases hid : (l.id == lid) = true
      · exact ⟨applyUpdate title summary l,
          List.mem_map.mpr ⟨l, hl, by rw [if_pos hid]⟩,
          rfl, rfl, rfl, rfl, rfl, rfl, rfl⟩
      · exact ⟨l, List.mem_map.mpr ⟨l, hl, by rw [if_neg hid]⟩,
          rfl, rfl, rfl, rfl, rfl, rfl, rfl⟩
    · intro l hl hne
      rw [hlinks]
      exact List.mem_map.mpr ⟨l, hl, by simp [beq_eq_false_iff_ne.mpr hne]⟩
    · intro p hp hne
      simp only [updateLink, hfind]
      cases tags with
      | none => exact hp
      | some tagList =>
        apply createTagsForLink_linkTags_mono
        exact mem_deleteTagsForLink.mpr ⟨hp, hne⟩
    · intro p hp hne
      simp only [updateLink, hfind] at hp
      cases tags with
      | none => exact hp
      | some tagList =>
        rcases createTagsForLink_linkTags_cases tagList _ p hp with h' | h'
        · exact (mem_deleteTagsForLink.mp h').1
        · exact absurd h' hne

/-- Witness for C10: a concrete owned record whose title and tags are
edited. -/
theorem c10_updateLink_frame_witness :
    ∃ l' ∈ ((updateLink
        ⟨[⟨7, "https://a.example", some "old", none, some "a.example", none,
          some [JNum.fin 1], 3, 11⟩], [], [], 8, 12⟩
        3 7 (some "new title") none (some ["Zebra"])).2).links,
      l'.id = 7 ∧ l'.url = "https://a.example" ∧ l'.image = none ∧
      l'.domain = some "a.example" ∧ l'.embedding = some [JNum.fin 1] ∧
      l'.userId = 3 ∧ l'.createdAt = 11 := by
  have h := (c10_updateLink_frame
    ⟨[⟨7, "https://a.example", some "old", none, some "a.example", none,
      some [JNum.fin 1], 3, 11⟩], [], [], 8, 12⟩
    3 7 (some "new title") none (some ["Zebra"])).1
    ⟨7, "https://a.example", some "old", none, some "a.example", none,
      some [JNum.fin 1], 3, 11⟩ (by decide)
  simpa using h

/-! ## C6 — tag vocabulary invariant -/

theorem createTagsForLink_tags_cases {lid : Nat} :
    ∀ (names : List String) (s : Store) (t : TagRow),
      t ∈ (createTagsForLink lid names s).tags → t ∈ s.tags ∨ t.name ∈ names
  | [], _, _, h => Or.inl h
  | n :: rest, s, t, h => by
    rw [createTagsForLink_cons] at h
    rcases createTagsForLink_tags_cases rest _ t h with h' | h'
    · rw [tagStep, insertLinkTag_tags] at h'
      rcases upsertTag_tags_cases h' with h'' | h''
      · exact Or.inl h''
      · exact Or.inr (by rw [h'']; exact List.mem_cons_self n rest)
    · exact Or.inr (List.mem_cons_of_mem n h')

theorem insertLinkTag_filter_count (a b lid : Nat) (s : Store) :
    ((insertLinkTag a b s).linkTags.filter
      (fun p => p.linkId == lid)).length ≤
    (s.linkTags.filter (fun p => p.linkId == lid)).length + 1 := by
  unfold insertLinkTag
  split
  · omega
  · rw [List.filter_append, List.length_append]
    have : ([(⟨a, b⟩ : LinkTag)].filter (fun p => p.linkId == lid)).length ≤ 1 := by
      rw [List.filter_singleton]
      cases ((⟨a, b⟩ : LinkTag).linkId == lid) <;> simp
    omega

theorem createTagsForLink_linkTag_count {lid : Nat} :
    ∀ (names : List String) (s : Store),
      ((createTagsForLink lid names s).linkTags.filter
        (fun p => p.linkId == lid)).length ≤
      (s.linkTags.filter (fun p => p.linkId == lid)).length + names.length
  | [], _ => le_refl _
  | n :: rest, s => by
    rw [createTagsForLink_cons]
    have h1 := @createTagsForLink_linkTag_count lid rest (tagStep lid s n)
    have h2 : ((tagStep lid s n).linkTags.filter
        (fun p => p.linkId == lid)).length ≤
        (s.linkTags.filter (fun p => p.linkId == lid)).length + 1 := by
      rw [tagStep]
      have := insertLinkTag_filter_count lid ((upsertTag n s).1).id lid
        ((upsertTag n s).2)
      rw [upsertTag_linkTags] at this
      exact this
    simp only [List.length_cons]
    omega

/-- C6 counterexample: `updateLink` attaches caller-supplied tag names
verbatim — six names outside the controlled vocabulary end up linked to
the record, violating both the subset and the size bound. -/
theorem c6_counterexample :
    ¬ ((∀ name ∈ tagNamesOf 1 (updateLink
          ⟨[⟨1, "https://a.example", none, none, none, none, none, 0, 0⟩],
            [], [], 2, 1⟩ 0 1 none none
          (some ["Z1", "Z2", "Z3", "Z4", "Z5", "Z6"])).2,
        name ∈ AVAILABLE_TAGS) ∧
      (tagNamesOf 1 (updateLink
          ⟨[⟨1, "https://a.example", none, none, none, none, none, 0, 0⟩],
            [], [], 2, 1⟩ 0 1 none none
          (some ["Z1", "Z2", "Z3", "Z4", "Z5", "Z6"])).2).length ≤ 5) := by
  decide

/-- `generateTags` always returns between 1 and 5 canonical vocabulary
tags. -/
theorem generateTags_spec (outcome : Except String (List String)) :
    (∀ t ∈ generateTags outcome, t ∈ AVAILABLE_TAGS) ∧
    1 ≤ (generateTags outcome).length ∧ (generateTags outcome).length ≤ 5 := by
  cases outcome with
  | error e =>
    refine ⟨?_, by simp [generateTags], by simp [generateTags]⟩
    intro t ht
    simp only [generateTags, List.mem_cons, List.mem_singleton] at ht
    rcases ht with rfl | rfl | h
    · decide
    · decide
    · exact absurd h (List.not_mem_nil t)
  | ok parsed =>
    simp only [generateTags]
    split
    · refine ⟨?_, by simp, by simp⟩
      intro t ht
      simp only [List.mem_cons, List.mem_singleton] at ht
      rcases ht with rfl | rfl | h
      · decide
      · decide
      · exact absurd h (List.not_mem_nil t)
    · rename_i hne
      refine ⟨?_, ?_, List.length_take_le _ _⟩
      · intro t ht
        have ht' := List.mem_of_mem_take ht
        obtain ⟨x, hx, rfl⟩ := List.mem_map.mp ht'
        have hxf := (List.mem_filter.mp hx).2
        obtain ⟨v, hv, hveq⟩ := List.any_eq_true.mp hxf
        cases hfind : AVAILABLE_TAGS.find? (fun w =>
            jsToLower w == jsToLower x) with
        | none =>
          exact absurd hveq
            (by simpa using List.find?_eq_none.mp hfind v hv)
        | some w =>
          simp only [Option.getD_some]
          exact List.mem_of_find?_eq_some hfind
      · rw [Nat.one_le_iff_ne_zero, Ne, List.length_eq_zero]
        intro hnil
        rw [Bool.not_eq_true, List.isEmpty_eq_false_iff_exists_mem] at hne
        obtain ⟨x, hx⟩ := hne
        rw [hnil] at hx
        exact absurd hx (List.not_mem_nil x)

/-- C6 amended: the vocabulary invariant is an *ingestion* invariant.
`generateTags` always yields 1–5 canonical vocabulary tags, substituting
the default pair `{Article, Blog}` on a provider error or when nothing
survives the filter; `createTagsForLink` attaches at most those names to
the target link (new tag rows only carry supplied names, new connections
only target the given link, at most `names.length` many), so a freshly
ingested record carries at most 5 connections.  `updateLink`, however,
passes the caller's tag names through this same unfiltered attachment, so
the vocabulary/size bound does not survive arbitrary updates (see the
counterexample). -/
theorem c6_tags_vocabulary_ingestion :
    (∀ outcome : Except String (List String),
      (∀ t ∈ generateTags outcome, t ∈ AVAILABLE_TAGS) ∧
      1 ≤ (generateTags outcome).length ∧ (generateTags outcome).length ≤ 5) ∧
    (∀ e : String, generateTags (.error e) = ["Article", "Blog"]) ∧
    (∀ parsed : List String,
      parsed.filter (fun tag => AVAILABLE_TAGS.any (fun v =>
        jsToLower v == jsToLower tag)) = [] →
      generateTags (.ok parsed) = ["Article", "Blog"]) ∧
    (∀ (lid : Nat) (names : List String) (s : Store) (t : TagRow),
      t ∈ (createTagsForLink lid names s).tags → t ∈ s.tags ∨ t.name ∈ names) ∧
    (∀ (lid : Nat) (names : List String) (s : Store) (p : LinkTag),
      p ∈ (createTagsForLink lid names s).linkTags →
      p ∈ s.linkTags ∨ p.linkId = lid) ∧
    (∀ (lid : Nat) (names : List String) (s : Store),
      ((createTagsForLink lid names s).linkTags.filter
        (fun p => p.linkId == lid)).length ≤
      (s.linkTags.filter (fun p => p.linkId == lid)).length + names.length) ∧
    (∀ (env : IngestEnv) (uid : Nat) (url : String) (s : Store),
      (s.linkTags.filter (fun p => p.linkId == s.nextId)).length = 0 →
      (((createLink env uid url s).store).linkTags.filter
        (fun p => p.linkId == s.nextId)).length ≤ 5) := by
  refine ⟨generateTags_spec, ?_, ?_, ?_, ?_, ?_, ?_⟩
  · intro e
    rfl
  · intro parsed h
    simp [generateTags, h]
  · intro lid names s t h
    exact createTagsForLink_tags_cases names s t h
  · intro lid names s p h
    exact createTagsForLink_linkTags_cases names s p h
  · intro lid names s
    exact createTagsForLink_linkTag_count names s
  · intro env uid url s h0
    cases hge : generateEmbedding env.embeddingOutcome with
    | error e =>
      simp only [createLink, hge]
      omega
    | ok emb =>
      by_cases hlen : emb.length ≠ 1536
      · simp only [createLink, hge, if_pos hlen]
        omega
      · simp only [createLink, hge, if_neg hlen]
        refine le_trans (@createTagsForLink_linkTag_count s.nextId _ _) ?_
        have h5 := (generateTags_spec env.tagsOutcome).2.2
        show (s.linkTags.filter (fun p => p.linkId == s.nextId)).length +
          (generateTags env.tagsOutcome).length ≤ 5
        omega

/-- Witness for C6's amended theorem: a provider error, a lowercase
vocabulary hit mixed with junk, and a fresh-store ingestion. -/
theorem c6_tags_vocabulary_ingestion_witness :
    generateTags (.error "boom") = ["Article", "Blog"] ∧
    1 ≤ (generateTags (.ok ["article", "Junk"])).length ∧
    (generateTags (.ok ["article", "Junk"])).length ≤ 5 ∧
    (((createLink ⟨none, none, "d", .error [], .error "e", .error "e",
        .ok (List.replicate 1536 (JNum.fin 0))⟩ 0 "https://x"
        ⟨[], [], [], 0, 0⟩).store).linkTags.filter
      (fun p => p.linkId == 0)).length ≤ 5 :=
  ⟨c6_tags_vocabulary_ingestion.2.1 "boom",
   (c6_tags_vocabulary_ingestion.1 (.ok ["article", "Junk"])).2.1,
   (c6_tags_vocabulary_ingestion.1 (.ok ["article", "Junk"])).2.2,
   c6_tags_vocabulary_ingestion.2.2.2.2.2.2
     ⟨none, none, "d", .error [], .error "e", .error "e",
       .ok (List.replicate 1536 (JNum.fin 0))⟩ 0 "https://x"
     ⟨[], [], [], 0, 0⟩ (by decide)⟩

/-! ## C1 — no write on embedding failure, clean retry -/

/-- C1: when embedding generation fails (provider error, wrong dimension
or non-finite component — all surfacing as a `generateEmbedding` error),
`createLink` returns a 500 with the store untouched: no link row, no tag
row, no link-to-tag row.  A later retry of the same URL against a
recovered provider then succeeds with 201 and leaves exactly one record
for that URL and owner. -/
theorem c1_createLink_atomic_on_embedding_failure
    (env env' : IngestEnv) (uid : Nat) (url : String) (s : Store)
    (e : String) (emb : List JNum)
    (hfail : generateEmbedding env.embeddingOutcome = .error e)
    (hok : generateEmbedding env'.embeddingOutcome = .ok emb)
    (hfresh : (s.links.filter
      (fun l => l.url == url && l.userId == uid)).length = 0) :
    createLink env uid url s = ⟨500, s⟩ ∧
    (createLink env' uid url (createLink env uid url s).store).status = 201 ∧
    ((createLink env' uid url (createLink env uid url s).store).store.links.filter
      (fun l => l.url == url && l.userId == uid)).length = 1 := by
  obtain ⟨-, hlen, -⟩ := generateEmbedding_ok hok
  have hlen' : ¬ emb.length ≠ 1536 := by
    simp [hlen, EMBEDDING_DIMENSIONS]
  have h1 : createLink env uid url s = ⟨500, s⟩ := by
    simp only [createLink, hfail]
  refine ⟨h1, ?_, ?_⟩
  · rw [h1]
    simp only [createLink, hok, if_neg hlen']
  · rw [h1]
    simp only [createLink, hok, if_neg hlen']
    rw [createTagsForLink_links]
    dsimp only
    rw [List.filter_append, List.length_append, hfresh]
    simp [List.filter]

set_option maxRecDepth 100000 in
/-- Witness for C1: a failing provider, then a recovered one, over an
empty store. -/
theorem c1_createLink_atomic_on_embedding_failure_witness :
    createLink ⟨none, none, "d", .error [], .error "e", .error "e",
        .error "prov"⟩ 0 "https://x" ⟨[], [], [], 0, 0⟩ =
      ⟨500, ⟨[], [], [], 0, 0⟩⟩ ∧
    (createLink ⟨none, none, "d", .error [], .error "e", .error "e",
        .ok (List.replicate 1536 (JNum.fin 0))⟩ 0 "https://x"
      (createLink ⟨none, none, "d", .error [], .error "e", .error "e",
          .error "prov"⟩ 0 "https://x" ⟨[], [], [], 0, 0⟩).store).status = 201 ∧
    ((createLink ⟨none, none, "d", .error [], .error "e", .error "e",
        .ok (List.replicate 1536 (JNum.fin 0))⟩ 0 "https://x"
      (createLink ⟨none, none, "d", .error [], .error "e", .error "e",
          .error "prov"⟩ 0 "https://x"
        ⟨[], [], [], 0, 0⟩).store).store.links.filter
      (fun l => l.url == "https://x" && l.userId == 0)).length = 1 :=
  c1_createLink_atomic_on_embedding_failure
    ⟨none, none, "d", .error [], .error "e", .error "e", .error "prov"⟩
    ⟨none, none, "d", .error [], .error "e", .error "e",
      .ok (List.replicate 1536 (JNum.fin 0))⟩
    0 "https://x" ⟨[], [], [], 0, 0⟩
    "Failed to generate embedding: prov" (List.replicate 1536 (JNum.fin 0))
    (by rfl) (by rfl) (by decide)
